import Mathlib

/-!
Shallow embedding of `src/revtron/database/main.py` (class `Database`), the
dynamic table-access layer of `revtron-utils`: the chunked upsert pipeline,
the predicate compiler `_where_clause`, the `get`/`update` builders and the
additive schema-evolution path of `create_table`/`add_column`.

Rows are modelled as ordered association lists from column names to SQL
values (`Record`), mirroring Python dicts; the database executor semantics
(PostgreSQL `INSERT .. ON CONFLICT DO UPDATE .. RETURNING`, batched
`UPDATE`, `ALTER TABLE ADD COLUMN`) are made explicit so that the
statements the Python code builds can be run inside the model.
-/

set_option autoImplicit false

/-- A SQL value: `null`, an integer, or a string.  (The source is
schema-agnostic; these constructors are enough to express every claim.) -/
inductive Val
  | null
  | int (i : Int)
  | str (s : String)
  deriving DecidableEq, Repr, Inhabited

/-- SQL `coalesce` on two values: the first argument unless it is null. -/
def coalesceV (a b : Val) : Val := if a = Val.null then b else a

/-- One row / one Python record dict: an ordered mapping column name to
value.  Operations below treat it with dict semantics (first binding of a
key wins). -/
abbrev Record := List (String × Val)

/-- Value of column `k` in record `r`; a column absent from the record reads
as SQL `null` (the unstated column default). -/
def valOf (r : Record) (k : String) : Val := (List.lookup k r).getD Val.null

/-- `r.keys()` of a record dict. -/
def keys (r : Record) : List String := r.map Prod.fst

/-- Python `dict.pop`'s removal effect: drop the binding of `k`. -/
def dictErase (r : Record) (k : String) : Record :=
  r.filter (fun p => !(p.1 == k))

/-- Python `dict[k] = v`: overwrite the binding in place if the key exists,
otherwise append it at the end. -/
def dictSet (r : Record) (k : String) (v : Val) : Record :=
  if r.any (fun p => p.1 == k) then
    r.map (fun p => bif p.1 == k then (k, v) else p)
  else
    r ++ [(k, v)]

/-- The introspected state of one table: column names (`get_table_columns`),
primary-key column names (`[key.name for key in sa_inspect(table).primary_key]`),
and the current rows.  Stored rows always carry every table column. -/
structure TableState where
  cols : List String
  pkey : List String
  rows : List Record
  deriving Repr

/-- Primary-key projection of a record: the tuple of its values at the
primary-key columns. -/
def pkeyOf (pk : List String) (r : Record) : List Val := pk.map (valOf r)

/-- Error taxonomy of the embedded operations.  `noPrimaryKey` is the
`Exception('No primary key found for table ..')` raised by `upsert`;
`keyError`/`indexError`/`attributeError`/`valueError`/`typeError` are the
Python exceptions the code lets escape; `bindError` is SQLAlchemy's
"a value is required for bind parameter" execution failure;
`unconsumedColumn` is SQLAlchemy's unconsumed-column-names compile failure;
`columnAlreadyExists` is the database's duplicate-column rejection of
`ALTER TABLE .. ADD COLUMN`.  `unsafeValue` exists only so that the spec's
claimed `UnsafeValue` failure can be stated; no embedded operation ever
produces it, because the source has no such error. -/
inductive DbError
  | noPrimaryKey (tableName : String)
  | keyError (key : String)
  | indexError
  | attributeError
  | valueError
  | typeError
  | bindError (key : String)
  | unconsumedColumn (key : String)
  | columnAlreadyExists (columnName : String)
  | unsafeValue
  deriving DecidableEq, Repr

/-- One assignment target of the `ON CONFLICT DO UPDATE SET` clause:
`stmt.excluded[k]` or `func.coalesce(stmt.excluded[k], table.c[k])`
(main.py lines 109-110). -/
inductive SetExpr
  | excl (k : String)
  | coalesceExcl (k : String)
  deriving DecidableEq, Repr

/-- The `set_` dictionary of `on_conflict_do_update`: one entry per key of
the chunk's first record, choosing the raw excluded value when
`overwrite_with_null` and the coalesce merge otherwise. -/
def setClause (overwriteWithNull : Bool) (ks : List String) : List (String × SetExpr) :=
  ks.map (fun k => (k, if overwriteWithNull then SetExpr.excl k else SetExpr.coalesceExcl k))

/-- Evaluate a `SET` expression against the incoming (excluded) record `r`
and the stored row `s`. -/
def evalSetExpr (r s : Record) : SetExpr → Val
  | SetExpr.excl k => valOf r k
  | SetExpr.coalesceExcl k => coalesceV (valOf r k) (valOf s k)

/-- Apply the conflict `SET` clause to stored row `s` for incoming record
`r`: columns named in the clause are reassigned, all others stay. -/
def resolveRow (set_ : List (String × SetExpr)) (r s : Record) : Record :=
  s.map (fun p =>
    match List.lookup p.1 set_ with
    | some e => (p.1, evalSetExpr r s e)
    | none => p)

/-- Python slicing loop `[data[i:i + chunk_size] for i in range(0, len(data),
chunk_size)]`: consecutive chunks of at most `c` records.  (`upsert` never
reaches this with `c = 0`: `range` with step 0 raises `ValueError` first.) -/
def chunksOfAux {α : Type} (c : Nat) : Nat → List α → List (List α)
  | _, [] => []
  | 0, _ :: _ => []
  | fuel + 1, x :: xs => (x :: xs).take c :: chunksOfAux c fuel ((x :: xs).drop c)

def chunksOf {α : Type} (c : Nat) (l : List α) : List (List α) :=
  if c = 0 then [] else chunksOfAux c l.length l

/-- One issued `INSERT .. ON CONFLICT DO UPDATE .. RETURNING` statement
(main.py lines 105-112): the chunk's rows, the conflict `SET` clause, and
the returned (primary-key) columns. -/
structure UpsertStmt where
  rows : List Record
  set_ : List (String × SetExpr)
  returning : List String
  deriving Repr

/-- Build the statement for one chunk; the `SET` clause is driven by
`chunk[0].keys()` alone. -/
def mkUpsertStmt (overwriteWithNull : Bool) (pk : List String) (chunk : List Record) :
    UpsertStmt :=
  ⟨chunk, setClause overwriteWithNull (keys (chunk.headD [])), pk⟩

/-- Replace the first row satisfying `p` by `s2`. -/
def replaceFirst (p : Record → Bool) (s2 : Record) : List Record → List Record
  | [] => []
  | x :: xs => if p x then s2 :: xs else x :: replaceFirst p s2 xs

/-- Executor step for one record of an upsert statement: on a primary-key
conflict the stored row is rewritten through the `SET` clause, otherwise the
record is inserted (absent columns defaulting to null); either way the
`RETURNING` clause yields the primary-key values of the affected row. -/
def applyRecord (set_ : List (String × SetExpr)) (t : TableState) (r : Record) :
    TableState × Record :=
  let key := pkeyOf t.pkey r
  match t.rows.find? (fun s => decide (pkeyOf t.pkey s = key)) with
  | some s =>
      let s2 := resolveRow set_ r s
      (⟨t.cols, t.pkey, replaceFirst (fun x => decide (pkeyOf t.pkey x = key)) s2 t.rows⟩,
       t.pkey.map (fun c => (c, valOf s2 c)))
  | none =>
      let nr := t.cols.map (fun c => (c, valOf r c))
      (⟨t.cols, t.pkey, t.rows ++ [nr]⟩, t.pkey.map (fun c => (c, valOf nr c)))

/-- Run one statement: its rows are applied in order and the `RETURNING`
records accumulate one per row. -/
def execRows (set_ : List (String × SetExpr)) (t : TableState) :
    List Record → TableState × List Record
  | [] => (t, [])
  | r :: rs =>
      let p1 := applyRecord set_ t r
      let p2 := execRows set_ p1.1 rs
      (p2.1, p1.2 :: p2.2)

/-- Run the statements of all chunks strictly in submission order,
accumulating the per-chunk returning lists (`results.extend(..)`). -/
def execStmts (t : TableState) : List UpsertStmt → TableState × List Record
  | [] => (t, [])
  | s :: ss =>
      let p1 := execRows s.set_ t s.rows
      let p2 := execStmts p1.1 ss
      (p2.1, p1.2 ++ p2.2)

namespace Database

/-- `Database.upsert` (main.py lines 87-116), list-shaped input: guard on an
empty introspected primary key, split into chunks, issue one
insert-on-conflict statement per chunk and concatenate the returned
primary-key records.  A `chunk_size` of 0 makes Python's `range` raise
`ValueError` before any statement is issued.  Returns the final table
state, the statements issued, and the accumulated result records. -/
def upsert (t : TableState) (tableName : String) (data : List Record)
    (chunk_size : Nat) (overwrite_with_null : Bool) :
    Except DbError (TableState × List UpsertStmt × List Record) :=
  if t.pkey = [] then Except.error (DbError.noPrimaryKey tableName)
  else if chunk_size = 0 then Except.error DbError.valueError
  else
    let stmts := (chunksOf chunk_size data).map (mkUpsertStmt overwrite_with_null t.pkey)
    let out := execStmts t stmts
    Except.ok (out.1, stmts, out.2)

end Database

/-- `Database.ColumnModel` (main.py lines 27-36): the spec of one column to
create.  Column types are identified by name in the model; only `name` and
`type` are consulted by the existing-table migration path. -/
structure ColumnModel where
  name : String
  type : String
  default : Option Val
  server_default : Option String
  autoincrement : Option Bool
  foreign_key : Option String
  deriving Repr

/-- `Database.add_column` (main.py lines 167-184) together with the
database's response to the issued `ALTER TABLE .. ADD COLUMN`: the column is
appended, and the database rejects a column that is already present.
The table schema is a list of (column name, column type) pairs. -/
def add_column (cols : List (String × String)) (columnName columnType : String) :
    Except DbError (List (String × String)) :=
  if (cols.map Prod.fst).contains columnName then
    Except.error (DbError.columnAlreadyExists columnName)
  else
    Except.ok (cols ++ [(columnName, columnType)])

/-- The `for column in missing_columns: self.add_column(..)` loop: add the
listed columns in order, stopping at the first failure. -/
def addColumns (cols : List (String × String)) :
    List (String × String) → Except DbError (List (String × String))
  | [] => Except.ok cols
  | c :: rest =>
      match add_column cols c.1 c.2 with
      | Except.error e => Except.error e
      | Except.ok cols2 => addColumns cols2 rest

namespace Database

/-- `Database.create_table` (main.py lines 118-138), restricted to the
branch taken when `check_existing` is true and the table already exists:
compute the columns of `mappings` whose names are absent from the
introspected column list and add exactly those via `add_column`. -/
def create_table_existing (existing : List (String × String))
    (mappings : List ColumnModel) : Except DbError (List (String × String)) :=
  let missing_columns :=
    (mappings.filter (fun m => !((existing.map Prod.fst).contains m.name))).map
      (fun m => (m.name, m.type))
  addColumns existing missing_columns

end Database

/-- A value position inside a predicate leaf: either a scalar or a list
(the shapes `v['value']` takes in the source's callers). -/
inductive WValue
  | val (v : Val)
  | vlist (vs : List Val)
  deriving DecidableEq, Repr

/-- One entry `k: v` of a predicate dict: either a plain value (implicit
equality) or an operator-tagged sub-dict whose `operator`/`value` keys may
each be absent (absence surfaces as Python `KeyError`). -/
inductive WEntry
  | plain (v : Val)
  | spec (operator : Option String) (value : Option WValue)
  deriving Repr

/-- A compiled query condition, one per `stmt.where(..)` call of
`_where_clause`.  Caller-supplied values are held as structured arguments
(bound parameters); only the column name — and, for `genericOp`, the
operator string — reach the statement text. -/
inductive Cond
  | inList (k : String) (v : WValue)
  | notInList (k : String) (v : WValue)
  | like (k : String) (v : WValue)
  | notLike (k : String) (v : WValue)
  | isNull (k : String)
  | isNotNull (k : String)
  | between (k : String) (lo hi : Val)
  | notBetween (k : String) (lo hi : Val)
  | genericOp (k : String) (operator : String) (v : WValue)
  | eq (k : String) (v : Val)
  deriving DecidableEq, Repr

/-- Python `str.lower()`, character by character (the operator strings of
`_where_clause` are ASCII, where this agrees with Python), written so that
it evaluates by kernel reduction. -/
def pyLower (s : String) : String := ⟨s.data.map Char.toLower⟩

/-- `v['value']` access: `KeyError` when the key is absent. -/
def getValue (value : Option WValue) : Except DbError WValue :=
  match value with
  | some v => Except.ok v
  | none => Except.error (DbError.keyError "value")

/-- `table.c[k]` access followed by use of `v['value']`. -/
def colValue (cols : List String) (k : String) (value : Option WValue)
    (mk : WValue → Cond) : Except DbError Cond :=
  if k ∈ cols then
    match getValue value with
    | Except.ok v => Except.ok (mk v)
    | Except.error e => Except.error e
  else Except.error (DbError.keyError k)

/-- The two subscripts `v['value'][0]`, `v['value'][1]` of the `between`
branches: a two-element (or longer) list yields its first two entries;
a shorter list raises `IndexError`; a scalar is modelled as raising
`TypeError` (non-list `value`s for `between` do not occur in the claims). -/
def betweenBounds (v : WValue) : Except DbError (Val × Val) :=
  match v with
  | WValue.vlist (a :: b :: _) => Except.ok (a, b)
  | WValue.vlist _ => Except.error DbError.indexError
  | WValue.val _ => Except.error DbError.typeError

/-- Compile one dict entry of `_where_clause` (main.py lines 189-210): the
recognized operators are matched case-insensitively in source order, an
unrecognized operator falls through to `table.c[k].op(v['operator'])(v['value'])`,
and a non-dict value becomes `table.c[k] == v`. -/
def compileEntry (cols : List String) (k : String) : WEntry → Except DbError Cond
  | WEntry.plain v =>
      if k ∈ cols then Except.ok (Cond.eq k v) else Except.error (DbError.keyError k)
  | WEntry.spec none _ => Except.error (DbError.keyError "operator")
  | WEntry.spec (some o) value =>
      let ol := pyLower o
      if ol = "in" then colValue cols k value (Cond.inList k)
      else if ol = "not in" then colValue cols k value (Cond.notInList k)
      else if ol = "like" then colValue cols k value (Cond.like k)
      else if ol = "not like" then colValue cols k value (Cond.notLike k)
      else if ol = "is null" then
        if k ∈ cols then Except.ok (Cond.isNull k) else Except.error (DbError.keyError k)
      else if ol = "is not null" then
        if k ∈ cols then Except.ok (Cond.isNotNull k) else Except.error (DbError.keyError k)
      else if ol = "between" then
        if k ∈ cols then
          match getValue value with
          | Except.error e => Except.error e
          | Except.ok v =>
              match betweenBounds v with
              | Except.error e => Except.error e
              | Except.ok b => Except.ok (Cond.between k b.1 b.2)
        else Except.error (DbError.keyError k)
      else if ol = "not between" then
        if k ∈ cols then
          match getValue value with
          | Except.error e => Except.error e
          | Except.ok v =>
              match betweenBounds v with
              | Except.error e => Except.error e
              | Except.ok b => Except.ok (Cond.notBetween k b.1 b.2)
        else Except.error (DbError.keyError k)
      else colValue cols k value (Cond.genericOp k o)

/-- The inner `for k, v in w.items()` loop over one predicate dict: each
entry contributes one condition, in order, stopping at the first error. -/
def compileDict (cols : List String) : List (String × WEntry) → Except DbError (List Cond)
  | [] => Except.ok []
  | (k, e) :: rest =>
      match compileEntry cols k e with
      | Except.error er => Except.error er
      | Except.ok c =>
          match compileDict cols rest with
          | Except.error er => Except.error er
          | Except.ok cs => Except.ok (c :: cs)

/-- The outer `for w in where` loop: conditions of consecutive dicts
accumulate onto the same statement (conjunctively). -/
def compileMany (cols : List String) :
    List (List (String × WEntry)) → Except DbError (List Cond)
  | [] => Except.ok []
  | w :: ws =>
      match compileDict cols w with
      | Except.error er => Except.error er
      | Except.ok cs =>
          match compileMany cols ws with
          | Except.error er => Except.error er
          | Except.ok cs2 => Except.ok (cs ++ cs2)

/-- The `where` argument of `_where_clause`: one predicate dict, a list of
predicate dicts, or — what a misusing caller would pass — a raw string
fragment. -/
inductive WhereArg
  | one (w : List (String × WEntry))
  | many (ws : List (List (String × WEntry)))
  | raw (s : String)

namespace Database

/-- `Database._where_clause` (main.py lines 186-211): a single dict is
wrapped into a one-element list; iterating a raw string yields characters,
and `'c'.items()` raises `AttributeError` on the first one (an empty string
iterates zero times and leaves the statement untouched). -/
def where_clause (cols : List String) : WhereArg → Except DbError (List Cond)
  | WhereArg.one w => compileDict cols w
  | WhereArg.many ws => compileMany cols ws
  | WhereArg.raw s => if s = "" then Except.ok [] else Except.error DbError.attributeError

end Database

/-- Python truthiness of the `where` argument (`if where:` in `get` and
`delete`): an empty dict, list or string is falsy. -/
def whereTruthy : Option WhereArg → Bool
  | none => false
  | some (WhereArg.one w) => !w.isEmpty
  | some (WhereArg.many ws) => !ws.isEmpty
  | some (WhereArg.raw s) => !(s = "")

/-- A total comparison on values used to model `ORDER BY` (nulls first,
integers before strings); the exact collation is irrelevant to the claims. -/
def valLe : Val → Val → Bool
  | Val.null, _ => true
  | _, Val.null => false
  | Val.int i, Val.int j => decide (i ≤ j)
  | Val.int _, Val.str _ => true
  | Val.str _, Val.int _ => false
  | Val.str a, Val.str b => decide (a ≤ b)

/-- Insert a row into a list sorted by the value of column `c`. -/
def insertBy (c : String) (r : Record) : List Record → List Record
  | [] => [r]
  | x :: xs => if valLe (valOf r c) (valOf x c) then r :: x :: xs else x :: insertBy c r xs

/-- Insertion sort of the result rows by column `c` (the `ORDER BY sort_by`
applied by the database). -/
def sortRows (c : String) : List Record → List Record
  | [] => []
  | r :: rs => insertBy c r (sortRows c rs)

/-- The `ORDER BY sort_by` stage; Python truthiness: an empty string is
falsy and `stmt.order_by` is skipped. -/
def applySort (sort_by : Option String) (rows : List Record) : List Record :=
  match sort_by with
  | some s => if s = "" then rows else sortRows s rows
  | none => rows

/-- The `OFFSET` stage; `if offset:` skips it for `0`. -/
def applyOffset (offset : Option Nat) (rows : List Record) : List Record :=
  match offset with
  | some o => if o = 0 then rows else rows.drop o
  | none => rows

/-- The `LIMIT` stage; `if limit:` skips it for `0`. -/
def applyLimit (limit : Option Nat) (rows : List Record) : List Record :=
  match limit with
  | some l => if l = 0 then rows else rows.take l
  | none => rows

/-- The row pipeline the database runs for the compiled select statement:
`WHERE` filtering (conditions judged by the oracle `ev`), `ORDER BY`,
`OFFSET`, `LIMIT`. -/
def getRows (ev : Cond → Record → Bool) (t : TableState) (conds : List Cond)
    (limit offset : Option Nat) (sort_by : Option String) : List Record :=
  applyLimit limit (applyOffset offset
    (applySort sort_by (t.rows.filter (fun r => conds.all (fun c => ev c r)))))

namespace Database

/-- `Database.get` (main.py lines 213-240), with row-level condition
satisfaction supplied as an oracle `ev` (SQL dialect semantics of the
compiled conditions live outside the embedded module).  Faithful quirks:
an empty `columns` list is falsy and selects all columns; `table.c[c]`
raises `KeyError` for an unknown selected column; `if where:` skips empty
filters; `if offset:`/`if limit:`/the empty-string check on `sort_by` skip
those clauses for falsy arguments; the result is always a list of records
projected onto the selected columns. -/
def get (ev : Cond → Record → Bool) (t : TableState)
    (columns : Option (List String)) (where_ : Option WhereArg)
    (limit : Option Nat) (offset : Option Nat) (sort_by : Option String) :
    Except DbError (List Record) :=
  match (match columns with
    | some cs => if cs.isEmpty then t.cols else cs
    | none => t.cols).find? (fun c => !(t.cols.contains c)) with
  | some c => Except.error (DbError.keyError c)
  | none =>
    match (if whereTruthy where_ then
        match where_ with
        | some w => Database.where_clause t.cols w
        | none => Except.ok []
      else Except.ok ([] : List Cond)) with
    | Except.error e => Except.error e
    | Except.ok conds =>
        Except.ok ((getRows ev t conds limit offset sort_by).map
          (fun r => (match columns with
            | some cs => if cs.isEmpty then t.cols else cs
            | none => t.cols).map (fun c => (c, valOf r c))))

end Database

/-- The in-place rewriting loop of `Database.update` (main.py lines
256-258): for each match column `c`, `record[f"_\x7bc\x7d"] = record.pop(c)` —
a `KeyError` surfaces when the record lacks the match column. -/
def transformRecord : List String → Record → Except DbError Record
  | [], r => Except.ok r
  | c :: rest, r =>
      match List.lookup c r with
      | none => Except.error (DbError.keyError c)
      | some v => transformRecord rest (dictSet (dictErase r c) ("_" ++ c) v)

/-- Map a fallible function over a list, stopping at the first error (the
shape of Python's `for record in data:` loop raising mid-way). -/
def mapExc {α β : Type} (f : α → Except DbError β) : List α → Except DbError (List β)
  | [] => Except.ok []
  | a :: as =>
      match f a with
      | Except.error e => Except.error e
      | Except.ok b =>
          match mapExc f as with
          | Except.error e => Except.error e
          | Except.ok bs => Except.ok (b :: bs)

/-- Apply the `SET` assignments of the batched update to one row: every
column in `valueKeys` takes the bound value of the same name. -/
def setVals (valueKeys : List String) (params row : Record) : Record :=
  row.map (fun p => if valueKeys.contains p.1 then (p.1, valOf params p.1) else p)

/-- Whether a stored row is matched by one parameter set: SQL equality on
every match column against the `_c` bind (null never compares equal). -/
def rowMatches (on_ : List String) (params : Record) (row : Record) : Bool :=
  on_.all (fun c =>
    decide (valOf row c = valOf params ("_" ++ c)) && !(decide (valOf params ("_" ++ c) = Val.null)))

/-- Execute the compiled `UPDATE` statement for one parameter set: all
bind parameters (`_c` for every match column, plus every value key) must be
present, matching rows are rewritten, and the count of matched rows is
reported. -/
def execUpdateOne (t : TableState) (on_ valueKeys : List String) (params : Record) :
    Except DbError (TableState × Nat) :=
  match (on_.map (fun c => "_" ++ c) ++ valueKeys).find?
      (fun b => !((keys params).contains b)) with
  | some b => Except.error (DbError.bindError b)
  | none =>
      let matched := t.rows.filter (rowMatches on_ params)
      let rows2 := t.rows.map (fun row =>
        if rowMatches on_ params row then setVals valueKeys params row else row)
      Except.ok (⟨t.cols, t.pkey, rows2⟩, matched.length)

/-- `executemany` over the parameter sets, sequentially, with rowcounts
accumulating. -/
def execUpdateMany (t : TableState) (on_ valueKeys : List String) :
    List Record → Except DbError (TableState × Nat)
  | [] => Except.ok (t, 0)
  | p :: ps =>
      match execUpdateOne t on_ valueKeys p with
      | Except.error e => Except.error e
      | Except.ok o1 =>
          match execUpdateMany o1.1 on_ valueKeys ps with
          | Except.error e => Except.error e
          | Except.ok o2 => Except.ok (o2.1, o1.2 + o2.2)

namespace Database

/-- `Database.update` (main.py lines 242-261), list-shaped input.  Order of
effects as in the source: the `RETURNING`/`WHERE` clauses reference
`table.c[c]` for every match column (a `KeyError` for an unknown column);
the values dict is built from `data[0]` (an `IndexError` on empty input),
keyed by every non-match key of the first record; each record is then
rewritten in place (`record[f"_\x7bc\x7d"] = record.pop(c)`); finally the
batched statement executes: value keys must be table columns, every bind
must be supplied by every record, and the summed rowcount is returned
together with the mutated records (the caller's dicts) and the new table
state. -/
def update (t : TableState) (data : List Record) (on_ : List String) :
    Except DbError (Nat × List Record × TableState) :=
  match on_.find? (fun c => !(t.cols.contains c)) with
  | some c => Except.error (DbError.keyError c)
  | none =>
    match data with
    | [] => Except.error DbError.indexError
    | r0 :: _ =>
      let valueKeys := (keys r0).filter (fun k => !(on_.contains k))
      match mapExc (transformRecord on_) data with
      | Except.error e => Except.error e
      | Except.ok data2 =>
          match valueKeys.find? (fun k => !(t.cols.contains k)) with
          | some k => Except.error (DbError.unconsumedColumn k)
          | none =>
              match execUpdateMany t on_ valueKeys data2 with
              | Except.error e => Except.error e
              | Except.ok o => Except.ok (o.2, data2, o.1)

end Database



/-! ## Chunking lemmas -/

theorem chunksOf_nil {α : Type} (c : Nat) : chunksOf c ([] : List α) = [] := by
  unfold chunksOf
  split <;> rfl

theorem chunksOfAux_congr {α : Type} (c : Nat) (hc : c ≠ 0) :
    ∀ (f1 f2 : Nat) (l : List α), l.length ≤ f1 → l.length ≤ f2 →
      chunksOfAux c f1 l = chunksOfAux c f2 l := by
  intro f1
  induction f1 with
  | zero =>
      intro f2 l h1 _
      have hl : l = [] := List.eq_nil_of_length_eq_zero (Nat.le_zero.mp h1)
      subst hl
      cases f2 <;> rfl
  | succ g1 ih =>
      intro f2 l h1 h2
      cases l with
      | nil => cases f2 <;> rfl
      | cons x xs =>
          cases f2 with
          | zero => simp at h2
          | succ g2 =>
              show (x :: xs).take c :: chunksOfAux c g1 ((x :: xs).drop c) =
                (x :: xs).take c :: chunksOfAux c g2 ((x :: xs).drop c)
              congr 1
              refine ih g2 ((x :: xs).drop c) ?_ ?_ <;>
                · simp only [List.length_drop, List.length_cons] at h1 h2 ⊢
                  omega

theorem chunksOf_cons {α : Type} (c : Nat) (hc : c ≠ 0) (x : α) (xs : List α) :
    chunksOf c (x :: xs) = (x :: xs).take c :: chunksOf c ((x :: xs).drop c) := by
  unfold chunksOf
  simp only [hc, if_false, List.length_cons]
  show (x :: xs).take c :: chunksOfAux c xs.length ((x :: xs).drop c) =
    (x :: xs).take c :: chunksOfAux c ((x :: xs).drop c).length ((x :: xs).drop c)
  congr 1
  refine chunksOfAux_congr c hc _ _ _ ?_ ?_ <;>
    · simp only [List.length_drop, List.length_cons]
      omega

theorem chunksOf_join {α : Type} (c : Nat) (hc : c ≠ 0) (l : List α) :
    (chunksOf c l).flatten = l := by
  match l with
  | [] => simp [chunksOf_nil]
  | x :: xs =>
      rw [chunksOf_cons c hc, List.flatten_cons, chunksOf_join c hc ((x :: xs).drop c)]
      exact List.take_append_drop c (x :: xs)
termination_by l.length
decreasing_by
  simp only [List.length_drop, List.length_cons]
  omega

theorem chunksOf_length {α : Type} (c : Nat) (hc : c ≠ 0) (l : List α) :
    (chunksOf c l).length = (l.length + c - 1) / c := by
  match l with
  | [] =>
      rw [chunksOf_nil]
      have h1 : (0 : Nat) + c - 1 < c := by omega
      rw [List.length_nil, List.length_nil, Nat.div_eq_of_lt h1]
  | x :: xs =>
      rw [chunksOf_cons c hc, List.length_cons,
        chunksOf_length c hc ((x :: xs).drop c)]
      simp only [List.length_drop, List.length_cons]
      by_cases h : xs.length + 1 ≤ c
      · have h0 : xs.length + 1 - c = 0 := by omega
        rw [h0]
        have h1 : (0 : Nat) + c - 1 < c := by omega
        rw [Nat.div_eq_of_lt h1]
        have h2 : 1 * c ≤ xs.length + 1 + c - 1 := by omega
        have h3 : xs.length + 1 + c - 1 < (1 + 1) * c := by omega
        rw [Nat.div_eq_of_lt_le h2 h3]
      · have hc1 : xs.length + 1 + c - 1 = (xs.length + 1 - c + c - 1) + c := by omega
        rw [hc1, Nat.add_div_right _ (Nat.pos_of_ne_zero hc)]
termination_by l.length
decreasing_by
  simp only [List.length_drop, List.length_cons]
  omega

theorem chunksOf_mem {α : Type} (c : Nat) (hc : c ≠ 0) (l : List α) :
    ∀ ch ∈ chunksOf c l, ch.length ≤ c ∧ ch ≠ [] := by
  match l with
  | [] => simp [chunksOf_nil]
  | x :: xs =>
      rw [chunksOf_cons c hc]
      intro ch hch
      rcases List.mem_cons.mp hch with h | h
      · subst h
        constructor
        · simp [Nat.min_le_left]
        · simp [List.take_eq_nil_iff, hc]
      · exact chunksOf_mem c hc ((x :: xs).drop c) ch h
termination_by l.length
decreasing_by
  simp only [List.length_drop, List.length_cons]
  omega

/-! ## Executor length lemmas -/

theorem execRows_length (set_ : List (String × SetExpr)) (t : TableState)
    (rs : List Record) : (execRows set_ t rs).2.length = rs.length := by
  induction rs generalizing t with
  | nil => rfl
  | cons r rs ih => simp [execRows, ih]

theorem execStmts_length (t : TableState) (ss : List UpsertStmt) :
    (execStmts t ss).2.length = (ss.map (fun s => s.rows.length)).sum := by
  induction ss generalizing t with
  | nil => rfl
  | cons s ss ih => simp [execStmts, execRows_length, ih]

/-! ## Association-list lookup lemmas -/

theorem lookup_isSome_of_mem (r : Record) (k : String) (h : k ∈ keys r) :
    ∃ v, List.lookup k r = some v := by
  induction r with
  | nil => simp [keys] at h
  | cons p rest ih =>
      by_cases hk : k = p.1
      · exact ⟨p.2, by simp [List.lookup, hk]⟩
      · have hb : (k == p.1) = false := by simp [hk]
        have hm : k ∈ keys rest := by
          simp [keys] at h ⊢
          tauto
        obtain ⟨v, hv⟩ := ih hm
        exact ⟨v, by simp [List.lookup, hb, hv]⟩

theorem lookup_setClause (ow : Bool) (ks : List String) (k : String) (h : k ∈ ks) :
    List.lookup k (setClause ow ks) =
      some (if ow then SetExpr.excl k else SetExpr.coalesceExcl k) := by
  induction ks with
  | nil => simp at h
  | cons a rest ih =>
      by_cases hk : k = a
      · subst hk
        simp [setClause, List.lookup]
      · have hb : (k == a) = false := by simp [hk]
        have hm : k ∈ rest := by
          rcases List.mem_cons.mp h with h1 | h1
          · exact absurd h1 hk
          · exact h1
        simpa [setClause, List.lookup, hb] using ih hm

theorem lookup_map_resolve (set_ : List (String × SetExpr)) (r s : Record)
    (l : Record) (k : String) :
    List.lookup k (l.map (fun p =>
      match List.lookup p.1 set_ with
      | some e => (p.1, evalSetExpr r s e)
      | none => p)) =
    (List.lookup k l).map (fun v =>
      match List.lookup k set_ with
      | some e => evalSetExpr r s e
      | none => v) := by
  induction l with
  | nil => rfl
  | cons p rest ih =>
      by_cases hk : k = p.1
      · subst hk
        cases hset : List.lookup p.1 set_ <;>
          simp [List.lookup, hset]
      · have hb : (k == p.1) = false := by simp [hk]
        cases hset : List.lookup p.1 set_ <;>
          simp [List.lookup, hb, hset, ih]

theorem valOf_resolve (ow : Bool) (r s : Record) (k : String)
    (hk : k ∈ keys r) (hks : k ∈ keys s) :
    valOf (resolveRow (setClause ow (keys r)) r s) k =
      if ow then valOf r k else coalesceV (valOf r k) (valOf s k) := by
  obtain ⟨v, hv⟩ := lookup_isSome_of_mem s k hks
  unfold resolveRow valOf
  rw [lookup_map_resolve, hv, lookup_setClause ow (keys r) k hk]
  cases ow <;> simp [evalSetExpr, valOf, hv]

theorem setClause_keys (ow : Bool) (ks : List String) :
    (setClause ow ks).map Prod.fst = ks := by
  unfold setClause
  rw [List.map_map]
  exact List.map_id ks

/-! ## Claim theorems: upsert -/

/-- C1: for every chunk size `c ≥ 1` and every list of `n` input records,
`upsert` splits the input into consecutive chunks of at most `c` records
(one statement per chunk, in submission order, their rows concatenating
back to the input), issues exactly `⌈n/c⌉` insert statements, and returns
exactly `n` result records, one per input record, in input order. -/
theorem upsert_chunking (t : TableState) (tableName : String) (data : List Record)
    (c : Nat) (ow : Bool) (hc : 1 ≤ c) (hpk : t.pkey ≠ []) :
    ∃ t2 stmts res,
      Database.upsert t tableName data c ow = Except.ok (t2, stmts, res) ∧
      stmts.map UpsertStmt.rows = chunksOf c data ∧
      stmts.length = (data.length + c - 1) / c ∧
      (∀ s ∈ stmts, s.rows.length ≤ c ∧ s.rows ≠ []) ∧
      (stmts.map UpsertStmt.rows).flatten = data ∧
      res.length = data.length := by
  have hc0 : c ≠ 0 := by omega
  have hrows : ∀ ch, (mkUpsertStmt ow t.pkey ch).rows = ch := fun _ => rfl
  refine ⟨(execStmts t ((chunksOf c data).map (mkUpsertStmt ow t.pkey))).1,
    (chunksOf c data).map (mkUpsertStmt ow t.pkey),
    (execStmts t ((chunksOf c data).map (mkUpsertStmt ow t.pkey))).2,
    ?_, ?_, ?_, ?_, ?_, ?_⟩
  · simp [Database.upsert, hpk, hc0]
  · simp [List.map_map]
    exact List.map_id (chunksOf c data)
  · simp [chunksOf_length c hc0 data]
  · intro s hs
    obtain ⟨ch, hch, rfl⟩ := List.mem_map.mp hs
    rw [hrows]
    exact chunksOf_mem c hc0 data ch hch
  · rw [List.map_map]
    have : (chunksOf c data).map (UpsertStmt.rows ∘ mkUpsertStmt ow t.pkey) =
        chunksOf c data := List.map_id (chunksOf c data)
    rw [this]
    exact chunksOf_join c hc0 data
  · rw [execStmts_length, List.map_map]
    have : ((chunksOf c data).map ((fun s => s.rows.length) ∘ mkUpsertStmt ow t.pkey)) =
        (chunksOf c data).map List.length := rfl
    rw [this, ← List.length_flatten, chunksOf_join c hc0 data]

/-- C1 witness: a concrete run with 3 records and chunk size 2. -/
theorem upsert_chunking_witness :
    (1 ≤ 2) ∧ ((⟨["id"], ["id"], []⟩ : TableState).pkey ≠ []) ∧
    (∃ t2 stmts res,
      Database.upsert ⟨["id"], ["id"], []⟩ "t" 
        [[("id", Val.int 1)], [("id", Val.int 2)], [("id", Val.int 3)]] 2 false =
        Except.ok (t2, stmts, res) ∧
      stmts.map UpsertStmt.rows =
        chunksOf 2 [[("id", Val.int 1)], [("id", Val.int 2)], [("id", Val.int 3)]] ∧
      stmts.length = (3 + 2 - 1) / 2 ∧
      (∀ s ∈ stmts, s.rows.length ≤ 2 ∧ s.rows ≠ []) ∧
      (stmts.map UpsertStmt.rows).flatten =
        [[("id", Val.int 1)], [("id", Val.int 2)], [("id", Val.int 3)]] ∧
      res.length = 3) :=
  ⟨by decide, by decide,
    upsert_chunking ⟨["id"], ["id"], []⟩ "t"
      [[("id", Val.int 1)], [("id", Val.int 2)], [("id", Val.int 3)]] 2 false
      (by decide) (by decide)⟩

/-- C3: `upsert` fails with the no-primary-key error exactly when the
introspected primary-key column set is empty, and in that case it never
produces a success (no insert statement is run, the table state is
untouched: the guard precedes chunking and execution). -/
theorem upsert_noPrimaryKey_iff (t : TableState) (tableName : String)
    (data : List Record) (c : Nat) (ow : Bool) :
    (Database.upsert t tableName data c ow =
        Except.error (DbError.noPrimaryKey tableName) ↔ t.pkey = []) ∧
    (t.pkey = [] → ∀ out, Database.upsert t tableName data c ow ≠ Except.ok out) := by
  unfold Database.upsert
  by_cases h : t.pkey = [] <;> by_cases h2 : c = 0 <;> simp [h, h2]

/-- C3 witness: a table whose introspected primary key is empty. -/
theorem upsert_noPrimaryKey_iff_witness :
    Database.upsert ⟨["a"], [], []⟩ "tbl" [[("a", Val.int 1)]] 3 false =
      Except.error (DbError.noPrimaryKey "tbl") :=
  (upsert_noPrimaryKey_iff ⟨["a"], [], []⟩ "tbl" [[("a", Val.int 1)]] 3 false).1.mpr rfl

/-- C9 (implicit): within each upsert chunk, the columns written by the
`ON CONFLICT DO UPDATE SET` clause are exactly the keys of the chunk's
first record; a key present only in later records of the chunk is not in
the update column set. -/
theorem upsert_set_cols_from_first_record (t : TableState) (tableName : String)
    (data : List Record) (c : Nat) (ow : Bool) (t2 : TableState)
    (stmts : List UpsertStmt) (res : List Record)
    (h : Database.upsert t tableName data c ow = Except.ok (t2, stmts, res)) :
    ∀ s ∈ stmts, s.set_.map Prod.fst = keys (s.rows.headD []) ∧
      (∀ k, k ∉ keys (s.rows.headD []) → k ∉ s.set_.map Prod.fst) := by
  unfold Database.upsert at h
  split at h
  · exact absurd h (by simp)
  split at h
  · exact absurd h (by simp)
  simp only [Except.ok.injEq, Prod.mk.injEq] at h
  obtain ⟨_, h2, _⟩ := h
  subst h2
  intro s hs
  obtain ⟨ch, _, rfl⟩ := List.mem_map.mp hs
  have hset : (mkUpsertStmt ow t.pkey ch).set_ = setClause ow (keys (ch.headD [])) := rfl
  have hrows : (mkUpsertStmt ow t.pkey ch).rows = ch := rfl
  rw [hset, hrows, setClause_keys]
  exact ⟨rfl, fun k hk => hk⟩

/-- C9 witness: a chunk whose second record carries a key `b` absent from
the first; the update column set is `[id, a]` and `b` is not in it. -/
theorem upsert_set_cols_from_first_record_witness :
    (mkUpsertStmt false ["id"]
        [[("id", Val.int 1), ("a", Val.int 2)],
         [("id", Val.int 2), ("b", Val.int 3)]]).set_.map Prod.fst =
      keys ((mkUpsertStmt false ["id"]
        [[("id", Val.int 1), ("a", Val.int 2)],
         [("id", Val.int 2), ("b", Val.int 3)]]).rows.headD []) ∧
    "b" ∉ (mkUpsertStmt false ["id"]
        [[("id", Val.int 1), ("a", Val.int 2)],
         [("id", Val.int 2), ("b", Val.int 3)]]).set_.map Prod.fst :=
  ⟨(upsert_set_cols_from_first_record ⟨["id", "a", "b"], ["id"], []⟩ "t"
      [[("id", Val.int 1), ("a", Val.int 2)], [("id", Val.int 2), ("b", Val.int 3)]]
      10 false
      ⟨["id", "a", "b"], ["id"],
        [[("id", Val.int 1), ("a", Val.int 2), ("b", Val.null)],
         [("id", Val.int 2), ("a", Val.null), ("b", Val.int 3)]]⟩
      [mkUpsertStmt false ["id"]
        [[("id", Val.int 1), ("a", Val.int 2)], [("id", Val.int 2), ("b", Val.int 3)]]]
      [[("id", Val.int 1)], [("id", Val.int 2)]] (by rfl) _
      (List.mem_cons_self _ _)).1,
   (upsert_set_cols_from_first_record ⟨["id", "a", "b"], ["id"], []⟩ "t"
      [[("id", Val.int 1), ("a", Val.int 2)], [("id", Val.int 2), ("b", Val.int 3)]]
      10 false
      ⟨["id", "a", "b"], ["id"],
        [[("id", Val.int 1), ("a", Val.int 2), ("b", Val.null)],
         [("id", Val.int 2), ("a", Val.null), ("b", Val.int 3)]]⟩
      [mkUpsertStmt false ["id"]
        [[("id", Val.int 1), ("a", Val.int 2)], [("id", Val.int 2), ("b", Val.int 3)]]]
      [[("id", Val.int 1)], [("id", Val.int 2)]] (by rfl) _
      (List.mem_cons_self _ _)).2 "b" (by decide)⟩

/-- C2: on a primary-key conflict, with `overwrite_with_null = true` the
incoming value (null included) replaces the stored value for every updated
column; with `overwrite_with_null = false` a null incoming value preserves
the stored value (coalesce merge) and a non-null incoming value wins. -/
theorem upsert_conflict_merge (t : TableState) (tableName : String) (r s : Record)
    (c : Nat) (ow : Bool) (k : String)
    (hc : 1 ≤ c) (hpk : t.pkey ≠ [])
    (hfind : t.rows.find? (fun x => decide (pkeyOf t.pkey x = pkeyOf t.pkey r)) = some s)
    (hk : k ∈ keys r) (hks : k ∈ keys s) :
    ∃ res,
      Database.upsert t tableName [r] c ow =
        Except.ok
          (⟨t.cols, t.pkey,
            replaceFirst (fun x => decide (pkeyOf t.pkey x = pkeyOf t.pkey r))
              (resolveRow (setClause ow (keys r)) r s) t.rows⟩,
           [mkUpsertStmt ow t.pkey [r]], res) ∧
      (ow = true → valOf (resolveRow (setClause ow (keys r)) r s) k = valOf r k) ∧
      (ow = false → valOf r k = Val.null →
        valOf (resolveRow (setClause ow (keys r)) r s) k = valOf s k) ∧
      (ow = false → valOf r k ≠ Val.null →
        valOf (resolveRow (setClause ow (keys r)) r s) k = valOf r k) := by
  have hc0 : c ≠ 0 := by omega
  have hchunks : chunksOf c [r] = [[r]] := by
    rw [chunksOf_cons c hc0]
    have h1 : ([r] : List Record).length ≤ c := by simp; omega
    rw [List.take_of_length_le h1, List.drop_eq_nil_of_le h1, chunksOf_nil]
  have hval := valOf_resolve ow r s k hk hks
  refine ⟨[t.pkey.map (fun col => (col, valOf (resolveRow (setClause ow (keys r)) r s) col))],
    ?_, ?_, ?_, ?_⟩
  · simp only [Database.upsert, hpk, hc0, if_false, hchunks, List.map_cons, List.map_nil]
    simp only [execStmts, execRows, applyRecord, mkUpsertStmt, List.headD_cons]
    rw [hfind]
    rfl
  · intro how
    rw [hval, how, if_pos rfl]
  · intro how hnull
    rw [hval, how]
    simp [coalesceV, hnull]
  · intro how hnull
    rw [hval, how]
    simp [coalesceV, hnull]

/-- C2 witness: a conflicting row where the incoming `v` is null and
`overwrite_with_null = false`: the stored `"old"` survives. -/
theorem upsert_conflict_merge_witness :
    ∃ res,
      Database.upsert
          ⟨["id", "v"], ["id"], [[("id", Val.int 1), ("v", Val.str "old")]]⟩ "t"
          [[("id", Val.int 1), ("v", Val.null)]] 5 false =
        Except.ok
          (⟨["id", "v"], ["id"],
            replaceFirst
              (fun x => decide (pkeyOf ["id"] x =
                pkeyOf ["id"] [("id", Val.int 1), ("v", Val.null)]))
              (resolveRow (setClause false (keys [("id", Val.int 1), ("v", Val.null)]))
                [("id", Val.int 1), ("v", Val.null)]
                [("id", Val.int 1), ("v", Val.str "old")])
              [[("id", Val.int 1), ("v", Val.str "old")]]⟩,
           [mkUpsertStmt false ["id"] [[("id", Val.int 1), ("v", Val.null)]]], res) ∧
      (false = true →
        valOf (resolveRow (setClause false (keys [("id", Val.int 1), ("v", Val.null)]))
          [("id", Val.int 1), ("v", Val.null)]
          [("id", Val.int 1), ("v", Val.str "old")]) "v" =
        valOf [("id", Val.int 1), ("v", Val.null)] "v") ∧
      (false = false → valOf [("id", Val.int 1), ("v", Val.null)] "v" = Val.null →
        valOf (resolveRow (setClause false (keys [("id", Val.int 1), ("v", Val.null)]))
          [("id", Val.int 1), ("v", Val.null)]
          [("id", Val.int 1), ("v", Val.str "old")]) "v" =
        valOf [("id", Val.int 1), ("v", Val.str "old")] "v") ∧
      (false = false → valOf [("id", Val.int 1), ("v", Val.null)] "v" ≠ Val.null →
        valOf (resolveRow (setClause false (keys [("id", Val.int 1), ("v", Val.null)]))
          [("id", Val.int 1), ("v", Val.null)]
          [("id", Val.int 1), ("v", Val.str "old")]) "v" =
        valOf [("id", Val.int 1), ("v", Val.null)] "v") :=
  upsert_conflict_merge
    ⟨["id", "v"], ["id"], [[("id", Val.int 1), ("v", Val.str "old")]]⟩ "t"
    [("id", Val.int 1), ("v", Val.null)] [("id", Val.int 1), ("v", Val.str "old")]
    5 false "v" (by decide) (by decide) (by rfl) (by decide) (by decide)

/-! ## Claim theorems: schema evolution -/

theorem addColumns_ok (existing todo : List (String × String))
    (hnd : (todo.map Prod.fst).Nodup)
    (hnew : ∀ p ∈ todo, p.1 ∉ existing.map Prod.fst) :
    addColumns existing todo = Except.ok (existing ++ todo) := by
  induction todo generalizing existing with
  | nil => simp [addColumns]
  | cons cpair rest ih =>
      have hc : ((existing.map Prod.fst).contains cpair.1) = false := by
        simpa using hnew cpair (List.mem_cons_self cpair rest)
      rw [addColumns, add_column, hc]
      simp only [Bool.false_eq_true, if_false]
      have hnd2 : (rest.map Prod.fst).Nodup := (List.nodup_cons.mp hnd).2
      have hhd : cpair.1 ∉ rest.map Prod.fst := (List.nodup_cons.mp hnd).1
      have hnew2 : ∀ p ∈ rest, p.1 ∉ (existing ++ [cpair]).map Prod.fst := by
        intro p hp
        rw [List.map_append, List.mem_append]
        rintro (h | h)
        · exact hnew p (List.mem_cons_of_mem cpair hp) h
        · simp only [List.map_cons, List.map_nil, List.mem_singleton] at h
          exact hhd (h ▸ List.mem_map_of_mem Prod.fst hp)
      rw [ih (existing ++ [cpair]) hnd2 hnew2]
      simp

/-- C4: `create_table` with `check_existing = true` on an existing table
adds exactly the spec columns whose names are absent from the introspected
column list (with their declared types, in spec order) and leaves every
pre-existing column and its type unchanged; no column is dropped or
renamed — the result is the unchanged original schema followed by the
missing columns.  Column names are unique within a spec list, per the
`ColumnModel` data model. -/
theorem create_table_existing_additive (existing : List (String × String))
    (mappings : List ColumnModel)
    (hnd : (mappings.map ColumnModel.name).Nodup) :
    Database.create_table_existing existing mappings =
      Except.ok (existing ++
        (mappings.filter (fun m => !((existing.map Prod.fst).contains m.name))).map
          (fun m => (m.name, m.type))) := by
  unfold Database.create_table_existing
  apply addColumns_ok
  · rw [List.map_map]
    have heq :
        (mappings.filter (fun m => !((existing.map Prod.fst).contains m.name))).map
          (Prod.fst ∘ fun m => (m.name, m.type)) =
        (mappings.filter (fun m => !((existing.map Prod.fst).contains m.name))).map
          ColumnModel.name := rfl
    rw [heq]
    exact hnd.sublist (List.Sublist.map ColumnModel.name (List.filter_sublist mappings))
  · intro p hp
    obtain ⟨m, hm, rfl⟩ := List.mem_map.mp hp
    have h2 := (List.mem_filter.mp hm).2
    simp only [Bool.not_eq_eq_eq_not, Bool.not_true] at h2
    simpa using h2

/-- C4 witness: a table with column `id` and a spec list adding `a`, `b`. -/
theorem create_table_existing_additive_witness :
    Database.create_table_existing [("id", "INTEGER")]
        [⟨"id", "INTEGER", none, none, none, none⟩,
         ⟨"a", "TEXT", none, none, none, none⟩,
         ⟨"b", "BOOLEAN", none, none, none, none⟩] =
      Except.ok ([("id", "INTEGER")] ++
        (([⟨"id", "INTEGER", none, none, none, none⟩,
           ⟨"a", "TEXT", none, none, none, none⟩,
           ⟨"b", "BOOLEAN", none, none, none, none⟩] : List ColumnModel).filter
            (fun m => !((([("id", "INTEGER")] : List (String × String)).map
              Prod.fst).contains m.name))).map (fun m => (m.name, m.type))) :=
  create_table_existing_additive [("id", "INTEGER")]
    [⟨"id", "INTEGER", none, none, none, none⟩,
     ⟨"a", "TEXT", none, none, none, none⟩,
     ⟨"b", "BOOLEAN", none, none, none, none⟩] (by decide)

/-! ## Claim theorems: predicate compiler -/

/-- C5: a predicate leaf whose operator (case-insensitively) is none of the
eight recognized ones compiles, without error, to a condition applying the
operator literally to the field and value; and the conditions accumulated
from a collection of predicates combine conjunctively — a row satisfies the
compiled statement exactly when it satisfies every predicate dict's
conditions, for any leaf-level satisfaction semantics `sat`. -/
theorem where_clause_fallthrough_and_conjunction :
    (∀ (cols : List String) (k o : String) (wv : WValue), k ∈ cols →
      pyLower o ∉ ["in", "not in", "like", "not like", "is null", "is not null",
        "between", "not between"] →
      compileEntry cols k (WEntry.spec (some o) (some wv)) =
        Except.ok (Cond.genericOp k o wv)) ∧
    (∀ (cols : List String) (ws : List (List (String × WEntry))) (conds : List Cond),
      Database.where_clause cols (WhereArg.many ws) = Except.ok conds →
      ∀ sat : Cond → Bool,
        conds.all sat = true ↔
          ∀ w ∈ ws, ∀ cs, compileDict cols w = Except.ok cs → cs.all sat = true) := by
  constructor
  · intro cols k o wv hk hop
    simp only [List.mem_cons, List.not_mem_nil, or_false, not_or] at hop
    obtain ⟨h1, h2, h3, h4, h5, h6, h7, h8⟩ := hop
    simp [compileEntry, h1, h2, h3, h4, h5, h6, h7, h8, colValue, getValue, hk]
  · intro cols ws
    induction ws with
    | nil =>
        intro conds h sat
        simp only [Database.where_clause, compileMany, Except.ok.injEq] at h
        subst h
        simp
    | cons w ws ih =>
        intro conds h sat
        simp only [Database.where_clause, compileMany] at h
        cases hw : compileDict cols w with
        | error e => rw [hw] at h; exact absurd h (by simp)
        | ok cs =>
            rw [hw] at h
            cases hws : compileMany cols ws with
            | error e => rw [hws] at h; exact absurd h (by simp)
            | ok cs2 =>
                rw [hws] at h
                simp only [Except.ok.injEq] at h
                subst h
                have ihs := ih cs2 (by simpa [Database.where_clause] using hws) sat
                constructor
                · intro hall
                  rw [List.all_append, Bool.and_eq_true] at hall
                  intro w2 hw2 cs3 hcs3
                  rcases List.mem_cons.mp hw2 with h1 | h1
                  · subst h1
                    rw [hw] at hcs3
                    simp only [Except.ok.injEq] at hcs3
                    subst hcs3
                    exact hall.1
                  · exact ihs.mp hall.2 w2 h1 cs3 hcs3
                · intro hws2
                  rw [List.all_append, Bool.and_eq_true]
                  refine ⟨hws2 w (List.mem_cons_self w ws) cs hw, ?_⟩
                  exact ihs.mpr (fun w2 h1 cs3 hcs3 =>
                    hws2 w2 (List.mem_cons_of_mem w h1) cs3 hcs3)

/-- C5 witness: the PostgreSQL containment operator `@>` is not in the
recognized set and passes through literally; a two-dict collection combines
conjunctively. -/
theorem where_clause_fallthrough_and_conjunction_witness :
    (compileEntry ["f"] "f" (WEntry.spec (some "@>") (some (WValue.val (Val.int 1)))) =
      Except.ok (Cond.genericOp "f" "@>" (WValue.val (Val.int 1)))) ∧
    (∀ sat : Cond → Bool,
      ([Cond.eq "f" (Val.int 1), Cond.eq "g" (Val.int 2)].all sat = true ↔
        ∀ w ∈ [[("f", WEntry.plain (Val.int 1))], [("g", WEntry.plain (Val.int 2))]],
          ∀ cs, compileDict ["f", "g"] w = Except.ok cs → cs.all sat = true)) :=
  ⟨where_clause_fallthrough_and_conjunction.1 ["f"] "f" "@>" (WValue.val (Val.int 1))
      (by decide) (by decide),
   fun sat => where_clause_fallthrough_and_conjunction.2 ["f", "g"]
      [[("f", WEntry.plain (Val.int 1))], [("g", WEntry.plain (Val.int 2))]]
      [Cond.eq "f" (Val.int 1), Cond.eq "g" (Val.int 2)] (by rfl) sat⟩

/-- C6 counterexample: a raw SQL fragment supplied instead of a structured
predicate makes `_where_clause` fail with Python's `AttributeError`
(iterating the string and calling `.items()` on a character), not with any
`UnsafeValue` error — no such error exists in the code. -/
theorem where_clause_raw_not_unsafeValue :
    Database.where_clause ["id"] (WhereArg.raw "1=1; DROP TABLE users") =
      Except.error DbError.attributeError ∧
    Database.where_clause ["id"] (WhereArg.raw "1=1; DROP TABLE users") ≠
      Except.error DbError.unsafeValue := by
  have h1 : Database.where_clause ["id"] (WhereArg.raw "1=1; DROP TABLE users") =
      Except.error DbError.attributeError := rfl
  refine ⟨h1, ?_⟩
  rw [h1]
  simp

/-- C6 amended: a caller-supplied raw query fragment (a non-empty string in
place of a structured predicate) makes the predicate compiler fail — but
with a generic `AttributeError`, as the code has no dedicated `UnsafeValue`
error. -/
theorem where_clause_raw_fragment_fails (cols : List String) (s : String)
    (hs : s ≠ "") :
    Database.where_clause cols (WhereArg.raw s) =
      Except.error DbError.attributeError := by
  simp [Database.where_clause, hs]

/-- C6 amended witness. -/
theorem where_clause_raw_fragment_fails_witness :
    ("id = 1" ≠ "") ∧
    Database.where_clause [] (WhereArg.raw "id = 1") =
      Except.error DbError.attributeError :=
  ⟨by decide, where_clause_raw_fragment_fails [] "id = 1" (by decide)⟩

/-! ## Claim theorems: get -/

theorem applySort_nil (sb : Option String) : applySort sb [] = [] := by
  cases sb with
  | none => rfl
  | some s => by_cases h : s = "" <;> simp [applySort, h, sortRows]

theorem applyOffset_nil (off : Option Nat) : applyOffset off [] = [] := by
  cases off with
  | none => rfl
  | some o => by_cases h : o = 0 <;> simp [applyOffset, h]

theorem applyLimit_nil (lim : Option Nat) : applyLimit lim [] = [] := by
  cases lim with
  | none => rfl
  | some l => by_cases h : l = 0 <;> simp [applyLimit, h]

theorem where_clause_not_truthy (cols : List String) (wh : WhereArg)
    (ht : whereTruthy (some wh) = false) :
    Database.where_clause cols wh = Except.ok [] := by
  cases wh with
  | one w =>
      have hw : w = [] := by
        simp only [whereTruthy, Bool.not_eq_false'] at ht
        exact List.isEmpty_iff.mp ht
      subst hw
      rfl
  | many ws =>
      have hw : ws = [] := by
        simp only [whereTruthy, Bool.not_eq_false'] at ht
        exact List.isEmpty_iff.mp ht
      subst hw
      rfl
  | raw s =>
      have hs : s = "" := by
        simp only [whereTruthy, Bool.not_eq_false'] at ht
        simpa using ht
      subst hs
      rfl

/-- C8 counterexample: `get` with `limit = 0` does not return an empty
sequence — `if limit:` is false for `0`, the `LIMIT` clause is skipped, and
the whole table comes back. -/
theorem get_limit_zero_counterexample :
    Database.get (fun _ _ => true) ⟨["id"], ["id"], [[("id", Val.int 1)]]⟩
        none none (some 0) none none = Except.ok [[("id", Val.int 1)]] ∧
    Database.get (fun _ _ => true) ⟨["id"], ["id"], [[("id", Val.int 1)]]⟩
        none none (some 0) none none ≠ Except.ok [] := by
  have h1 : Database.get (fun _ _ => true) ⟨["id"], ["id"], [[("id", Val.int 1)]]⟩
      none none (some 0) none none = Except.ok [[("id", Val.int 1)]] := rfl
  refine ⟨h1, ?_⟩
  rw [h1]
  simp

/-- C8 amended: `get` with `limit = 0` behaves exactly as `get` with no
limit at all (the falsy `0` skips the `LIMIT` clause); and a `get` whose
predicate matches no stored row returns the empty list — a sequence value,
never an absent one. -/
theorem get_limit_zero_and_no_match :
    (∀ (ev : Cond → Record → Bool) (t : TableState) (columns : Option (List String))
        (wh : Option WhereArg) (off : Option Nat) (sb : Option String),
      Database.get ev t columns wh (some 0) off sb =
        Database.get ev t columns wh none off sb) ∧
    (∀ (ev : Cond → Record → Bool) (t : TableState) (columns : Option (List String))
        (wh : WhereArg) (lim off : Option Nat) (sb : Option String) (conds : List Cond),
      Database.where_clause t.cols wh = Except.ok conds →
      (∀ r ∈ t.rows, conds.all (fun c => ev c r) = false) →
      (∀ cs, columns = some cs → ∀ c ∈ cs, c ∈ t.cols) →
      Database.get ev t columns (some wh) lim off sb = Except.ok []) := by
  constructor
  · intro ev t columns wh off sb
    unfold Database.get
    cases hf : (match columns with
        | some cs => if cs.isEmpty then t.cols else cs
        | none => t.cols).find? (fun c => !(t.cols.contains c)) with
    | some c => simp only [hf]
    | none =>
        simp only [hf]
        cases hcnd : (if whereTruthy wh then
            match wh with
            | some w => Database.where_clause t.cols w
            | none => Except.ok []
          else Except.ok ([] : List Cond)) with
        | error e => simp only [hcnd]
        | ok conds =>
            simp only [hcnd, Except.ok.injEq]
            have hrows : getRows ev t conds (some 0) off sb =
                getRows ev t conds none off sb := rfl
            rw [hrows]
  · intro ev t columns wh lim off sb conds hwc hnone hcols
    unfold Database.get
    have hfind : (match columns with
        | some cs => if cs.isEmpty then t.cols else cs
        | none => t.cols).find? (fun c => !(t.cols.contains c)) = none := by
      apply List.find?_eq_none.mpr
      intro c hc
      have hmem : c ∈ t.cols := by
        cases columns with
        | none => exact hc
        | some cs =>
            have hc2 : c ∈ (if cs.isEmpty then t.cols else cs) := hc
            by_cases hcs : cs.isEmpty
            · rw [if_pos hcs] at hc2; exact hc2
            · rw [if_neg hcs] at hc2; exact hcols cs rfl c hc2
      simpa using hmem
    simp only [hfind]
    have hfilter : t.rows.filter (fun r => conds.all (fun c => ev c r)) = [] := by
      apply List.filter_eq_nil_iff.mpr
      intro r hr
      rw [hnone r hr]
      simp
    by_cases ht : whereTruthy (some wh)
    · have hred : (if whereTruthy (some wh) then
          match some wh with
          | some w => Database.where_clause t.cols w
          | none => Except.ok []
        else Except.ok ([] : List Cond)) = Except.ok conds := by
        rw [if_pos ht]
        exact hwc
      simp only [hred]
      rw [show getRows ev t conds lim off sb =
        applyLimit lim (applyOffset off (applySort sb
          (t.rows.filter (fun r => conds.all (fun c => ev c r))))) from rfl]
      rw [hfilter, applySort_nil, applyOffset_nil, applyLimit_nil]
      rfl
    · have ht2 : whereTruthy (some wh) = false := by simpa using ht
      have hconds : conds = [] := by
        have := where_clause_not_truthy t.cols wh ht2
        rw [this] at hwc
        exact (Except.ok.inj hwc).symm
      subst hconds
      have hrows0 : t.rows = [] := by
        cases hr : t.rows with
        | nil => rfl
        | cons r rs =>
            have := hnone r (by rw [hr]; exact List.mem_cons_self r rs)
            simp at this
      have hred : (if whereTruthy (some wh) then
          match some wh with
          | some w => Database.where_clause t.cols w
          | none => Except.ok []
        else Except.ok ([] : List Cond)) = Except.ok ([] : List Cond) := by
        rw [if_neg ht]
      simp only [hred]
      rw [show getRows ev t [] lim off sb =
        applyLimit lim (applyOffset off (applySort sb
          (t.rows.filter (fun r => ([] : List Cond).all (fun c => ev c r))))) from rfl]
      rw [hrows0]
      rw [show (([] : List Record).filter (fun r => ([] : List Cond).all (fun c => ev c r))) = [] from rfl]
      rw [applySort_nil, applyOffset_nil, applyLimit_nil]
      rfl

/-- C8 amended witness: limit-0 equivalence on a one-row table, and a
predicate matching nothing yielding the empty list. -/
theorem get_limit_zero_and_no_match_witness :
    (Database.get (fun _ _ => true) ⟨["id"], ["id"], [[("id", Val.int 1)]]⟩
        none none (some 0) none none =
      Database.get (fun _ _ => true) ⟨["id"], ["id"], [[("id", Val.int 1)]]⟩
        none none none none none) ∧
    Database.get (fun _ _ => false) ⟨["id"], ["id"], [[("id", Val.int 1)]]⟩ none
        (some (WhereArg.one [("id", WEntry.plain (Val.int 2))])) none none none =
      Except.ok [] :=
  ⟨get_limit_zero_and_no_match.1 (fun _ _ => true)
      ⟨["id"], ["id"], [[("id", Val.int 1)]]⟩ none none none none,
   get_limit_zero_and_no_match.2 (fun _ _ => false)
      ⟨["id"], ["id"], [[("id", Val.int 1)]]⟩ none
      (WhereArg.one [("id", WEntry.plain (Val.int 2))]) none none none
      [Cond.eq "id" (Val.int 2)] (by rfl) (by decide)
      (fun cs h => by cases h)⟩

/-! ## Dict-operation lemmas for `update` -/

theorem underscore_ne (c : String) : "_" ++ c ≠ c := by
  intro h
  have h2 := congrArg String.length h
  rw [String.length_append] at h2
  have h3 : ("_" : String).length = 1 := rfl
  omega

theorem underscore_inj {a b : String} (h : "_" ++ a = "_" ++ b) : a = b := by
  have hd := congrArg String.data h
  rw [String.data_append, String.data_append] at hd
  exact String.ext (List.append_cancel_left hd)

theorem lookup_append_single (k : String) (v : Val) (r : Record)
    (h : r.any (fun p => p.1 == k) = false) :
    List.lookup k (r ++ [(k, v)]) = some v := by
  induction r with
  | nil => simp [List.lookup]
  | cons p rest ih =>
      simp only [List.any_cons, Bool.or_eq_false_iff] at h
      have hb : (k == p.1) = false := by
        rcases beq_eq_false_iff_ne.mp h.1 with hne
        exact beq_eq_false_iff_ne.mpr (fun he => hne he.symm)
      simp only [List.cons_append, List.lookup, hb]
      exact ih h.2

theorem lookup_append_single_ne (k k' : String) (v : Val) (r : Record)
    (h : k' ≠ k) :
    List.lookup k' (r ++ [(k, v)]) = List.lookup k' r := by
  induction r with
  | nil => simp [List.lookup, beq_eq_false_iff_ne.mpr h]
  | cons p rest ih =>
      cases hb : (k' == p.1) <;> simp [List.lookup, hb, ih]

theorem lookup_mapSet (k : String) (v : Val) (r : Record)
    (h : r.any (fun p => p.1 == k) = true) :
    List.lookup k (r.map (fun p => bif p.1 == k then (k, v) else p)) = some v := by
  induction r with
  | nil => simp at h
  | cons p rest ih =>
      by_cases hk : p.1 = k
      · simp [List.lookup, hk]
      · have hb : (p.1 == k) = false := beq_eq_false_iff_ne.mpr hk
        have hb2 : (k == p.1) = false :=
          beq_eq_false_iff_ne.mpr (fun he => hk he.symm)
        simp only [List.any_cons, hb, Bool.false_or] at h
        simp [List.lookup, hb, hb2, ih h]

theorem lookup_dictSet_self (r : Record) (k : String) (v : Val) :
    List.lookup k (dictSet r k v) = some v := by
  unfold dictSet
  by_cases h : r.any (fun p => p.1 == k) = true
  · rw [if_pos h]
    exact lookup_mapSet k v r h
  · rw [if_neg h]
    exact lookup_append_single k v r (Bool.not_eq_true _ ▸ h)

theorem lookup_dictSet_ne (r : Record) (k k' : String) (v : Val) (h : k' ≠ k) :
    List.lookup k' (dictSet r k v) = List.lookup k' r := by
  unfold dictSet
  by_cases ha : r.any (fun p => p.1 == k) = true
  · rw [if_pos ha]
    clear ha
    induction r with
    | nil => rfl
    | cons p rest ih =>
        by_cases hk : p.1 = k
        · have hb2 : (k' == p.1) = false :=
            beq_eq_false_iff_ne.mpr (fun he => h (hk ▸ he))
          have hb3 : (k' == k) = false := beq_eq_false_iff_ne.mpr h
          simp [List.lookup, hk, hb2, hb3, ih]
        · have hb : (p.1 == k) = false := beq_eq_false_iff_ne.mpr hk
          cases hb2 : (k' == p.1) <;> simp [List.lookup, hb, hb2, ih]
  · rw [if_neg ha]
    exact lookup_append_single_ne k k' v r h

theorem lookup_dictErase_self (r : Record) (k : String) :
    List.lookup k (dictErase r k) = none := by
  unfold dictErase
  induction r with
  | nil => rfl
  | cons p rest ih =>
      cases hb : (p.1 == k) with
      | true => simpa [List.filter, hb] using ih
      | false =>
          have hb2 : (k == p.1) = false :=
            beq_eq_false_iff_ne.mpr (fun he => (beq_eq_false_iff_ne.mp hb) he.symm)
          simpa [List.filter, hb, List.lookup, hb2] using ih

theorem lookup_dictErase_ne (r : Record) (k k' : String) (h : k' ≠ k) :
    List.lookup k' (dictErase r k) = List.lookup k' r := by
  unfold dictErase
  induction r with
  | nil => rfl
  | cons p rest ih =>
      cases hb : (p.1 == k) with
      | true =>
          have hk : p.1 = k := beq_iff_eq.mp hb
          have hb2 : (k' == p.1) = false :=
            beq_eq_false_iff_ne.mpr (fun he => h (hk ▸ he))
          simpa [List.filter, hb, List.lookup, hb2] using ih
      | false =>
          cases hb2 : (k' == p.1) <;>
            simp [List.filter, hb, List.lookup, hb2, ih]

theorem mem_keys_iff_lookup (r : Record) (k : String) :
    k ∈ keys r ↔ List.lookup k r ≠ none := by
  constructor
  · intro h
    obtain ⟨v, hv⟩ := lookup_isSome_of_mem r k h
    rw [hv]
    simp
  · intro h
    induction r with
    | nil => simp [List.lookup] at h
    | cons p rest ih =>
        by_cases hk : k = p.1
        · subst hk
          simp [keys]
        · have hb : (k == p.1) = false := beq_eq_false_iff_ne.mpr hk
          simp only [List.lookup, hb] at h
          simp only [keys, List.map_cons, List.mem_cons]
          exact Or.inr (ih h)

/-! ## transformRecord lemmas -/

theorem transformRecord_preserve (on_ : List String) (r r2 : Record)
    (h : transformRecord on_ r = Except.ok r2) (k : String)
    (hk1 : k ∉ on_) (hk2 : ∀ c ∈ on_, k ≠ "_" ++ c) :
    List.lookup k r2 = List.lookup k r := by
  induction on_ generalizing r with
  | nil =>
      simp only [transformRecord, Except.ok.injEq] at h
      rw [h]
  | cons c0 rest ih =>
      simp only [transformRecord] at h
      cases hl : List.lookup c0 r with
      | none => rw [hl] at h; exact absurd h (by simp)
      | some v =>
          rw [hl] at h
          have hk1r : k ∉ rest := fun hm => hk1 (List.mem_cons_of_mem c0 hm)
          have hk2r : ∀ c ∈ rest, k ≠ "_" ++ c :=
            fun c hc => hk2 c (List.mem_cons_of_mem c0 hc)
          rw [ih (dictSet (dictErase r c0) ("_" ++ c0) v) h hk1r hk2r]
          rw [lookup_dictSet_ne _ _ _ _ (hk2 c0 (List.mem_cons_self c0 rest))]
          exact lookup_dictErase_ne r c0 k
            (fun he => hk1 (he ▸ List.mem_cons_self c0 rest))

theorem transformRecord_lookup (on_ : List String) (r r2 : Record)
    (hnd : on_.Nodup)
    (hH : ∀ c1 ∈ on_, ∀ c2 ∈ on_, ("_" ++ c1) ≠ c2)
    (h : transformRecord on_ r = Except.ok r2) :
    ∀ c ∈ on_, List.lookup c r2 = none ∧
      List.lookup ("_" ++ c) r2 = List.lookup c r ∧ List.lookup c r ≠ none := by
  induction on_ generalizing r with
  | nil => intro c hc; simp at hc
  | cons c0 rest ih =>
      simp only [transformRecord] at h
      cases hl : List.lookup c0 r with
      | none => rw [hl] at h; exact absurd h (by simp)
      | some v =>
          rw [hl] at h
          have hnd2 : rest.Nodup := (List.nodup_cons.mp hnd).2
          have hc0r : c0 ∉ rest := (List.nodup_cons.mp hnd).1
          have hH2 : ∀ c1 ∈ rest, ∀ c2 ∈ rest, ("_" ++ c1) ≠ c2 :=
            fun c1 h1 c2 h2 =>
              hH c1 (List.mem_cons_of_mem c0 h1) c2 (List.mem_cons_of_mem c0 h2)
          intro c hc
          rcases List.mem_cons.mp hc with hcc | hcrest
          · subst hcc
            constructor
            · rw [transformRecord_preserve rest _ r2 h c hc0r
                (fun c2 hc2 => fun he =>
                  hH c2 (List.mem_cons_of_mem c hc2) c (List.mem_cons_self c rest)
                    he.symm)]
              rw [lookup_dictSet_ne _ _ _ _ (fun he => underscore_ne c he.symm)]
              exact lookup_dictErase_self r c
            · constructor
              · rw [transformRecord_preserve rest _ r2 h ("_" ++ c)
                  (fun hm => hH c (List.mem_cons_self c rest) ("_" ++ c)
                    (List.mem_cons_of_mem c hm) rfl)
                  (fun c2 hc2 => fun he =>
                    hc0r ((underscore_inj he) ▸ hc2))]
                rw [lookup_dictSet_self, hl]
              · rw [hl]
                simp
          · have hres := ih (dictSet (dictErase r c0) ("_" ++ c0) v) hnd2 hH2 h
              c hcrest
            have hcc0 : c ≠ c0 := fun he => hc0r (he ▸ hcrest)
            have hcu : c ≠ "_" ++ c0 := fun he =>
              hH c0 (List.mem_cons_self c0 rest) c (List.mem_cons_of_mem c0 hcrest)
                he.symm
            have heq : List.lookup c (dictSet (dictErase r c0) ("_" ++ c0) v) =
                List.lookup c r := by
              rw [lookup_dictSet_ne _ _ _ _ hcu]
              exact lookup_dictErase_ne r c0 c hcc0
            exact ⟨hres.1, heq ▸ hres.2.1, heq ▸ hres.2.2⟩

theorem transformRecord_err (on_ : List String) (r : Record) (c : String)
    (hc : c ∈ on_) (hlook : List.lookup c r = none)
    (hH : ∀ c1 ∈ on_, ∀ c2 ∈ on_, ("_" ++ c1) ≠ c2) :
    ∃ e, transformRecord on_ r = Except.error e := by
  induction on_ generalizing r with
  | nil => simp at hc
  | cons c0 rest ih =>
      cases hl : List.lookup c0 r with
      | none => exact ⟨DbError.keyError c0, by simp [transformRecord, hl]⟩
      | some v =>
          have hcc0 : c ≠ c0 := fun he => by rw [he, hl] at hlook; cases hlook
          have hcrest : c ∈ rest := by
            rcases List.mem_cons.mp hc with h1 | h1
            · exact absurd h1 hcc0
            · exact h1
          have hcu : c ≠ "_" ++ c0 := fun he =>
            hH c0 (List.mem_cons_self c0 rest) c (List.mem_cons_of_mem c0 hcrest)
              he.symm
          have hH2 : ∀ c1 ∈ rest, ∀ c2 ∈ rest, ("_" ++ c1) ≠ c2 :=
            fun c1 h1 c2 h2 =>
              hH c1 (List.mem_cons_of_mem c0 h1) c2 (List.mem_cons_of_mem c0 h2)
          have hlook2 : List.lookup c (dictSet (dictErase r c0) ("_" ++ c0) v) = none := by
            rw [lookup_dictSet_ne _ _ _ _ hcu, lookup_dictErase_ne r c0 c hcc0]
            exact hlook
          obtain ⟨e, he⟩ := ih (dictSet (dictErase r c0) ("_" ++ c0) v) hcrest hlook2 hH2
          exact ⟨e, by simp [transformRecord, hl, he]⟩

theorem transformRecord_err_shape (on_ : List String) (r : Record) (e : DbError)
    (h : transformRecord on_ r = Except.error e) : ∃ c, e = DbError.keyError c := by
  induction on_ generalizing r with
  | nil => simp [transformRecord] at h
  | cons c0 rest ih =>
      simp only [transformRecord] at h
      cases hl : List.lookup c0 r with
      | none =>
          rw [hl] at h
          simp only [Except.error.injEq] at h
          exact ⟨c0, h.symm⟩
      | some v =>
          rw [hl] at h
          exact ih _ h

theorem transformRecord_ok (on_ : List String) (r : Record)
    (hnd : on_.Nodup)
    (hH : ∀ c1 ∈ on_, ∀ c2 ∈ on_, ("_" ++ c1) ≠ c2)
    (hall : ∀ c ∈ on_, List.lookup c r ≠ none) :
    ∃ r2, transformRecord on_ r = Except.ok r2 := by
  induction on_ generalizing r with
  | nil => exact ⟨r, rfl⟩
  | cons c0 rest ih =>
      cases hl : List.lookup c0 r with
      | none => exact absurd hl (hall c0 (List.mem_cons_self c0 rest))
      | some v =>
          have hnd2 : rest.Nodup := (List.nodup_cons.mp hnd).2
          have hc0r : c0 ∉ rest := (List.nodup_cons.mp hnd).1
          have hH2 : ∀ c1 ∈ rest, ∀ c2 ∈ rest, ("_" ++ c1) ≠ c2 :=
            fun c1 h1 c2 h2 =>
              hH c1 (List.mem_cons_of_mem c0 h1) c2 (List.mem_cons_of_mem c0 h2)
          have hall2 : ∀ c ∈ rest, List.lookup c
              (dictSet (dictErase r c0) ("_" ++ c0) v) ≠ none := by
            intro c hc
            have hcc0 : c ≠ c0 := fun he => hc0r (he ▸ hc)
            have hcu : c ≠ "_" ++ c0 := fun he =>
              hH c0 (List.mem_cons_self c0 rest) c (List.mem_cons_of_mem c0 hc)
                he.symm
            rw [lookup_dictSet_ne _ _ _ _ hcu, lookup_dictErase_ne r c0 c hcc0]
            exact hall c (List.mem_cons_of_mem c0 hc)
          obtain ⟨r2, hr2⟩ := ih (dictSet (dictErase r c0) ("_" ++ c0) v) hnd2 hH2 hall2
          exact ⟨r2, by simp [transformRecord, hl, hr2]⟩

/-! ## mapExc and batched-update executor lemmas -/

theorem mapExc_ok_forall {α β : Type} (f : α → Except DbError β)
    (l : List α) (l2 : List β) (h : mapExc f l = Except.ok l2) :
    List.Forall₂ (fun a b => f a = Except.ok b) l l2 := by
  induction l generalizing l2 with
  | nil =>
      simp only [mapExc, Except.ok.injEq] at h
      rw [← h]
      exact List.Forall₂.nil
  | cons a rest ih =>
      simp only [mapExc] at h
      cases hf : f a with
      | error e => rw [hf] at h; exact absurd h (by simp)
      | ok b =>
          rw [hf] at h
          cases hm : mapExc f rest with
          | error e => rw [hm] at h; exact absurd h (by simp)
          | ok bs =>
              rw [hm] at h
              simp only [Except.ok.injEq] at h
              rw [← h]
              exact List.Forall₂.cons hf (ih bs hm)

theorem mapExc_ok_of_forall {α β : Type} (f : α → Except DbError β) (l : List α)
    (h : ∀ a ∈ l, ∃ b, f a = Except.ok b) :
    ∃ l2, mapExc f l = Except.ok l2 := by
  induction l with
  | nil => exact ⟨[], rfl⟩
  | cons a rest ih =>
      obtain ⟨b, hb⟩ := h a (List.mem_cons_self a rest)
      obtain ⟨bs, hbs⟩ := ih (fun a2 h2 => h a2 (List.mem_cons_of_mem a h2))
      exact ⟨b :: bs, by simp [mapExc, hb, hbs]⟩

theorem mapExc_error_mem {α β : Type} (f : α → Except DbError β) (l : List α)
    (e : DbError) (h : mapExc f l = Except.error e) :
    ∃ a ∈ l, f a = Except.error e := by
  induction l with
  | nil => simp [mapExc] at h
  | cons a rest ih =>
      simp only [mapExc] at h
      cases hf : f a with
      | error e2 =>
          rw [hf] at h
          simp only [Except.error.injEq] at h
          exact ⟨a, List.mem_cons_self a rest, h ▸ hf⟩
      | ok b =>
          rw [hf] at h
          cases hm : mapExc f rest with
          | error e2 =>
              rw [hm] at h
              simp only [Except.error.injEq] at h
              obtain ⟨a2, ha2, hfa2⟩ := ih (h ▸ hm)
              exact ⟨a2, List.mem_cons_of_mem a ha2, hfa2⟩
          | ok bs => rw [hm] at h; exact absurd h (by simp)

theorem execUpdateOne_ok (t : TableState) (on_ valueKeys : List String)
    (params : Record)
    (h : ∀ b ∈ on_.map (fun c => "_" ++ c) ++ valueKeys, b ∈ keys params) :
    ∃ n, execUpdateOne t on_ valueKeys params =
      Except.ok (⟨t.cols, t.pkey, t.rows.map (fun row =>
        if rowMatches on_ params row then setVals valueKeys params row else row)⟩, n) := by
  have hfind : (on_.map (fun c => "_" ++ c) ++ valueKeys).find?
      (fun b => !((keys params).contains b)) = none := by
    apply List.find?_eq_none.mpr
    intro b hb
    simpa using h b hb
  exact ⟨(t.rows.filter (rowMatches on_ params)).length,
    by unfold execUpdateOne; rw [hfind]⟩

theorem execUpdateMany_ok (t : TableState) (on_ valueKeys : List String)
    (ps : List Record)
    (h : ∀ p ∈ ps, ∀ b ∈ on_.map (fun c => "_" ++ c) ++ valueKeys, b ∈ keys p) :
    ∃ t2 n, execUpdateMany t on_ valueKeys ps = Except.ok (t2, n) ∧
      t2.rows.length = t.rows.length := by
  induction ps generalizing t with
  | nil => exact ⟨t, 0, rfl, rfl⟩
  | cons p rest ih =>
      obtain ⟨n1, h1⟩ := execUpdateOne_ok t on_ valueKeys p
        (h p (List.mem_cons_self p rest))
      obtain ⟨t2, n2, h2, hlen⟩ :=
        ih ⟨t.cols, t.pkey, t.rows.map (fun row =>
          if rowMatches on_ p row then setVals valueKeys p row else row)⟩
          (fun p2 hp2 => h p2 (List.mem_cons_of_mem p hp2))
      exact ⟨t2, n1 + n2, by simp [execUpdateMany, h1, h2], by
        rw [hlen]; simp⟩

theorem mapExc_ok_mem {α β : Type} (f : α → Except DbError β) (l : List α)
    (l2 : List β) (h : mapExc f l = Except.ok l2) (a : α) (ha : a ∈ l) :
    ∃ b, f a = Except.ok b := by
  induction l generalizing l2 with
  | nil => simp at ha
  | cons x rest ih =>
      simp only [mapExc] at h
      cases hf : f x with
      | error e => rw [hf] at h; exact absurd h (by simp)
      | ok b =>
          rw [hf] at h
          cases hm : mapExc f rest with
          | error e => rw [hm] at h; exact absurd h (by simp)
          | ok bs =>
              rcases List.mem_cons.mp ha with h1 | h1
              · exact ⟨b, h1 ▸ hf⟩
              · exact ih bs hm h1

theorem mapExc_ok_mem_right {α β : Type} (f : α → Except DbError β) (l : List α)
    (l2 : List β) (h : mapExc f l = Except.ok l2) (b : β) (hb : b ∈ l2) :
    ∃ a ∈ l, f a = Except.ok b := by
  induction l generalizing l2 with
  | nil =>
      simp only [mapExc, Except.ok.injEq] at h
      rw [← h] at hb
      simp at hb
  | cons x rest ih =>
      simp only [mapExc] at h
      cases hf : f x with
      | error e => rw [hf] at h; exact absurd h (by simp)
      | ok b2 =>
          rw [hf] at h
          cases hm : mapExc f rest with
          | error e => rw [hm] at h; exact absurd h (by simp)
          | ok bs =>
              rw [hm] at h
              simp only [Except.ok.injEq] at h
              rw [← h] at hb
              rcases List.mem_cons.mp hb with h1 | h1
              · exact ⟨x, List.mem_cons_self x rest, h1 ▸ hf⟩
              · obtain ⟨a, ha, hfa⟩ := ih bs hm h1
                exact ⟨a, List.mem_cons_of_mem x ha, hfa⟩

/-! ## Claim theorems: update -/

/-- C7 counterexample: both records carry the match field `id`, yet the
call fails (SQLAlchemy's missing-bind-parameter error for `a`) instead of
returning a row count, because the values clause is keyed on the first
record's non-match keys and the second record lacks `a`. -/
theorem update_heterogeneous_counterexample :
    (∀ r ∈ ([[("id", Val.int 1), ("a", Val.int 1)],
        [("id", Val.int 2)]] : List Record), "id" ∈ keys r) ∧
    Database.update ⟨["id", "a"], ["id"], []⟩
        [[("id", Val.int 1), ("a", Val.int 1)], [("id", Val.int 2)]] ["id"] =
      Except.error (DbError.bindError "a") := by
  constructor
  · decide
  · rfl

/-- C7 amended: `update` fails with a `KeyError` naming a match field (the
missing-match-field condition) whenever any record lacks a declared match
field; when every record carries every match field and also every value
key of the first record — with match fields distinct, known columns, and no
underscore collisions — the call succeeds and returns the summed count of
rows the batched statement modified, leaving the number of stored rows
unchanged (`0` is a valid count). -/
theorem update_missing_field_or_count :
    (∀ (t : TableState) (data : List Record) (on_ : List String)
        (r : Record) (c : String),
      r ∈ data → c ∈ on_ → List.lookup c r = none →
      (∀ c1 ∈ on_, ∀ c2 ∈ on_, ("_" ++ c1) ≠ c2) →
      ∃ c2, Database.update t data on_ = Except.error (DbError.keyError c2)) ∧
    (∀ (t : TableState) (data : List Record) (on_ : List String)
        (r0 : Record) (rest : List Record),
      data = r0 :: rest →
      on_.Nodup →
      (∀ c1 ∈ on_, ∀ c2 ∈ on_, ("_" ++ c1) ≠ c2) →
      (∀ c ∈ on_, c ∈ t.cols) →
      (∀ k ∈ keys r0, k ∉ on_ → k ∈ t.cols) →
      (∀ k ∈ keys r0, ∀ c ∈ on_, k ≠ "_" ++ c) →
      (∀ r ∈ data, ∀ c ∈ on_, c ∈ keys r) →
      (∀ r ∈ data, ∀ k ∈ keys r0, k ∉ on_ → k ∈ keys r) →
      ∃ n data2 t2, Database.update t data on_ = Except.ok (n, data2, t2) ∧
        t2.rows.length = t.rows.length) := by
  constructor
  · intro t data on_ r c hr hc hlook hH
    unfold Database.update
    cases hfc : on_.find? (fun c2 => !(t.cols.contains c2)) with
    | some c0 => exact ⟨c0, rfl⟩
    | none =>
        cases data with
        | nil => exact absurd hr (List.not_mem_nil r)
        | cons r0 rest =>
            obtain ⟨e, herr⟩ := transformRecord_err on_ r c hc hlook hH
            cases hm : mapExc (transformRecord on_) (r0 :: rest) with
            | ok l2 =>
                obtain ⟨b, hb⟩ := mapExc_ok_mem _ _ _ hm r hr
                rw [herr] at hb
                exact absurd hb (by simp)
            | error e2 =>
                obtain ⟨a, _, hfa⟩ := mapExc_error_mem _ _ _ hm
                obtain ⟨c2, hc2⟩ := transformRecord_err_shape on_ a e2 hfa
                refine ⟨c2, ?_⟩
                simp only [hm, hc2]
  · intro t data on_ r0 rest hdata hnd hH hcols hvk hnocollide hmatch hvkeys
    subst hdata
    unfold Database.update
    have hfc : on_.find? (fun c2 => !(t.cols.contains c2)) = none := by
      apply List.find?_eq_none.mpr
      intro c hcon
      simpa using hcols c hcon
    simp only [hfc]
    obtain ⟨l2, hl2⟩ := mapExc_ok_of_forall (transformRecord on_) (r0 :: rest)
      (fun r hrr => transformRecord_ok on_ r hnd hH
        (fun c hc => (mem_keys_iff_lookup r c).mp (hmatch r hrr c hc)))
    simp only [hl2]
    have hfvk : ((keys r0).filter (fun k => !(on_.contains k))).find?
        (fun k => !(t.cols.contains k)) = none := by
      apply List.find?_eq_none.mpr
      intro k hk
      have hk1 : k ∈ keys r0 := (List.mem_filter.mp hk).1
      have hk2 : k ∉ on_ := by
        have := (List.mem_filter.mp hk).2
        simpa using this
      simpa using hvk k hk1 hk2
    simp only [hfvk]
    have hbinds : ∀ p ∈ l2,
        ∀ b ∈ on_.map (fun c => "_" ++ c) ++
          (keys r0).filter (fun k => !(on_.contains k)), b ∈ keys p := by
      intro p hp b hb
      obtain ⟨r, hrl, hrp⟩ := mapExc_ok_mem_right _ _ _ hl2 p hp
      rcases List.mem_append.mp hb with hbo | hbv
      · obtain ⟨c, hcon, rfl⟩ := List.mem_map.mp hbo
        have hlk := transformRecord_lookup on_ r p hnd hH hrp c hcon
        exact (mem_keys_iff_lookup p ("_" ++ c)).mpr
          (by rw [hlk.2.1]; exact hlk.2.2)
      · have hbk : b ∈ keys r0 := (List.mem_filter.mp hbv).1
        have hbno : b ∉ on_ := by
          have := (List.mem_filter.mp hbv).2
          simpa using this
        have hbr : List.lookup b r ≠ none :=
          (mem_keys_iff_lookup r b).mp (hvkeys r hrl b hbk hbno)
        have hpres := transformRecord_preserve on_ r p hrp b hbno
          (fun c hcon => hnocollide b hbk c hcon)
        exact (mem_keys_iff_lookup p b).mpr (by rw [hpres]; exact hbr)
    obtain ⟨t2, n, hexec, hlen⟩ := execUpdateMany_ok t on_
      ((keys r0).filter (fun k => !(on_.contains k))) l2 hbinds
    simp only [hexec]
    exact ⟨n, l2, t2, rfl, hlen⟩

/-- C7 amended witness: a one-record update on an empty table succeeds with
row count 0 (part 2), and a record missing the match field fails with a
`KeyError` (part 1). -/
theorem update_missing_field_or_count_witness :
    (∃ c2, Database.update ⟨["id", "a"], ["id"], []⟩ [[("a", Val.int 1)]] ["id"] =
      Except.error (DbError.keyError c2)) ∧
    (∃ n data2 t2,
      Database.update ⟨["id", "a"], ["id"], []⟩
          [[("id", Val.int 1), ("a", Val.int 2)]] ["id"] =
        Except.ok (n, data2, t2) ∧
      t2.rows.length = (⟨["id", "a"], ["id"], []⟩ : TableState).rows.length) :=
  ⟨update_missing_field_or_count.1 ⟨["id", "a"], ["id"], []⟩
      [[("a", Val.int 1)]] ["id"] [("a", Val.int 1)] "id"
      (by decide) (by decide) (by decide) (by decide),
   update_missing_field_or_count.2 ⟨["id", "a"], ["id"], []⟩
      [[("id", Val.int 1), ("a", Val.int 2)]] ["id"]
      [("id", Val.int 1), ("a", Val.int 2)] [] rfl
      (by decide) (by decide) (by decide) (by decide) (by decide) (by decide)
      (by decide)⟩

/-- C10 (implicit): a successful `update` has rewritten the caller's record
dicts in place — for every record and every match field `c` of `on`, the
key `c` is gone (it was present before the call), its value now sits under
`"_" ++ c`, and the record observed after the call differs from what was
passed in. -/
theorem update_mutates_records (t : TableState) (data : List Record)
    (on_ : List String) (n : Nat) (data2 : List Record) (t2 : TableState)
    (hnd : on_.Nodup)
    (hH : ∀ c1 ∈ on_, ∀ c2 ∈ on_, ("_" ++ c1) ≠ c2)
    (h : Database.update t data on_ = Except.ok (n, data2, t2)) :
    List.Forall₂ (fun r r2 =>
      (∀ c ∈ on_, List.lookup c r2 = none ∧
        List.lookup ("_" ++ c) r2 = List.lookup c r ∧ List.lookup c r ≠ none) ∧
      (on_ ≠ [] → r2 ≠ r)) data data2 := by
  unfold Database.update at h
  cases hfc : on_.find? (fun c2 => !(t.cols.contains c2)) with
  | some c0 => rw [hfc] at h; exact absurd h (by simp)
  | none =>
      rw [hfc] at h
      cases data with
      | nil => exact absurd h (by simp)
      | cons r0 rest =>
          cases hm : mapExc (transformRecord on_) (r0 :: rest) with
          | error e => rw [hm] at h; exact absurd h (by simp)
          | ok l2 =>
              rw [hm] at h
              simp only [] at h
              cases hfv : ((keys r0).filter (fun k => !(on_.contains k))).find?
                  (fun k => !(t.cols.contains k)) with
              | some k => rw [hfv] at h; exact absurd h (by simp)
              | none =>
                  rw [hfv] at h
                  cases hex : execUpdateMany t on_
                      ((keys r0).filter (fun k => !(on_.contains k))) l2 with
                  | error e => rw [hex] at h; exact absurd h (by simp)
                  | ok o =>
                      rw [hex] at h
                      simp only [Except.ok.injEq, Prod.mk.injEq] at h
                      obtain ⟨_, hdata2, _⟩ := h
                      subst hdata2
                      have hfa := mapExc_ok_forall _ _ _ hm
                      refine hfa.imp ?_
                      intro r r2 hr
                      have hlk := transformRecord_lookup on_ r r2 hnd hH hr
                      refine ⟨hlk, ?_⟩
                      intro hne heq
                      cases on_ with
                      | nil => exact hne rfl
                      | cons c0 rest2 =>
                          have h1 := hlk c0 (List.mem_cons_self c0 rest2)
                          rw [heq] at h1
                          exact h1.2.2 h1.1

/-- C10 witness: a concrete successful call; the caller's dict
`[("id", 1), ("a", 2)]` comes back as `[("a", 2), ("_id", 1)]`. -/
theorem update_mutates_records_witness :
    List.Forall₂ (fun r r2 =>
      (∀ c ∈ ["id"], List.lookup c r2 = none ∧
        List.lookup ("_" ++ c) r2 = List.lookup c r ∧ List.lookup c r ≠ none) ∧
      ((["id"] : List String) ≠ [] → r2 ≠ r))
      [[("id", Val.int 1), ("a", Val.int 2)]]
      [[("a", Val.int 2), ("_id", Val.int 1)]] :=
  update_mutates_records ⟨["id", "a"], ["id"], []⟩
    [[("id", Val.int 1), ("a", Val.int 2)]] ["id"] 0
    [[("a", Val.int 2), ("_id", Val.int 1)]] ⟨["id", "a"], ["id"], []⟩
    (by decide) (by decide) (by rfl)
